import Mathlib

/-!
Verification of the training-orchestration core (`shared_utils/model_initializer.py`
and `shared_utils/prep_training_data.py`) against its natural-language design
specification.  Python code is shallowly embedded: methods become pure Lean
functions, fallible methods return `Except`, Python floats that hold exact
small rationals are modelled by `ℚ`, and the file-system / ML-framework
boundary is modelled by explicit state records and function parameters.
-/

/-- Error taxonomy of the design (§7): each constructor corresponds to one
`raise` site in the two source modules. -/
inductive DataError where
  | countMismatch
  | batchSizeExceedsLimit
  | unknownBaseModel
  | complexityTooLong
  deriving DecidableEq, Repr

/-! ## Step counting (`Dataset.calc_train_steps`, prep_training_data.py 150-173)

The source computes `round(len(x)/batch_size)` with Python's builtin `round`
(round-half-to-even) and then adds 1 whenever `len(x) % batch_size != 0`. -/

/-- Python's builtin `round` on an exact rational value: round to the nearest
integer, ties going to the even integer. -/
def pyRound (q : ℚ) : ℤ :=
  let f : ℤ := ⌊q⌋
  if q - f < 1/2 then f
  else if 1/2 < q - f then f + 1
  else if f % 2 = 0 then f else f + 1

/-- `Dataset.calc_train_steps`: `self.train_steps = round(len(train_x)/batch_size)`,
incremented by one when `len(train_x) % batch_size != 0`; same for the
validation split.  Returns `(train_steps, valid_steps)`. -/
def calc_train_steps (train_len valid_len batch_size : ℕ) : ℤ × ℤ :=
  let ts := pyRound ((train_len : ℚ) / (batch_size : ℚ))
  let vs := pyRound ((valid_len : ℚ) / (batch_size : ℚ))
  (if train_len % batch_size ≠ 0 then ts + 1 else ts,
   if valid_len % batch_size ≠ 0 then vs + 1 else vs)

/-! ## Batch sizing (`Dataset.__set_batch_size` / `calc_nearest_power_of_two`,
prep_training_data.py 127-145, 175-183)

`limit` is the memory-derived maximum `available_memory / avg_file_size`,
a Python float carrying a nonnegative real; it is modelled as a rational.
`math.floor(math.log2 n)` and `math.ceil(math.log2 n)` are modelled by
fuel-based structural recursion so that they evaluate inside the kernel. -/

/-- Floor of the base-2 logarithm, by repeated halving with explicit fuel
(the fuel `n` is always sufficient since the argument halves each step). -/
def log2floorFuel : ℕ → ℕ → ℕ
  | 0, _ => 0
  | fuel + 1, n => if n ≤ 1 then 0 else log2floorFuel fuel (n / 2) + 1

/-- `math.floor(math.log2 n)` for `n ≥ 1`. -/
def log2floor (n : ℕ) : ℕ := log2floorFuel n n

/-- `math.ceil(math.log2 n)` for `n ≥ 1`: zero at `n = 1`, otherwise one more
than the floor logarithm of `n - 1`. -/
def log2ceil (n : ℕ) : ℕ := if n ≤ 1 then 0 else log2floor (n - 1) + 1

/-- `Dataset.calc_nearest_power_of_two`: round `batch_size` up to
`2 ** ceil(log2 batch_size)`; if that exceeds `limit`, fall back to
`2 ** floor(log2 batch_size)`; if the value still exceeds `limit`, raise the
exceeds-limit error.  The source's sequential reassignment of `power_of_two`
followed by a second limit test is rendered as nested conditionals (when the
round-up already fits, the second test re-examines it and passes). -/
def calc_nearest_power_of_two (batch_size : ℕ) (limit : ℚ) : Except DataError ℕ :=
  if ((2 ^ log2ceil batch_size : ℕ) : ℚ) > limit then
    if ((2 ^ log2floor batch_size : ℕ) : ℚ) > limit then .error .batchSizeExceedsLimit
    else .ok (2 ^ log2floor batch_size)
  else .ok (2 ^ log2ceil batch_size)

/-- `Dataset.__set_batch_size`: choose the power of two for the requested
size under the memory limit, then cap at the number of examples
(`min([nearest_power_of_two, self.num_examples])`).  The advisory prints in
the source have no effect on the stored value and are not modelled. -/
def set_batch_size (num_examples batch_size : ℕ) (limit : ℚ) : Except DataError ℕ :=
  (calc_nearest_power_of_two batch_size limit).map (fun p => min p num_examples)

/-- **C2** (code-bug evaluation): at the spec's own end-to-end scenario C — a
train split of 76 samples with batch size 8 — `calc_train_steps` computes
`round(76/8) = round(9.5) = 10` (Python rounds the tie to the even integer)
and then adds one because `76 % 8 ≠ 0`, yielding 11 training steps, whereas
the claimed value `ceil(76/8)` is 10.  At an exact multiple (64 samples) the
code does agree with the ceiling. -/
theorem C2_step_count_is_not_ceiling_eval :
    (calc_train_steps 76 76 8).1 = 11 ∧ ⌈(76:ℚ)/8⌉ = 10 ∧ (11:ℤ) ≠ 10 ∧
      (calc_train_steps 64 64 8).1 = 8 := by
  have h9 : (⌊(76:ℚ)/8⌋ : ℤ) = 9 := by norm_num [Int.floor_eq_iff]
  have h8 : (⌊(64:ℚ)/8⌋ : ℤ) = 8 := by norm_num [Int.floor_eq_iff]
  refine ⟨?_, ?_, by norm_num, ?_⟩
  · simp only [calc_train_steps, pyRound, h9]; norm_num
  · norm_num [Int.ceil_eq_iff]
  · simp only [calc_train_steps, pyRound, h8]; norm_num

/-- **C3** (counterexample): with 95 examples, a requested batch size of 100
and a memory-derived maximum of 1000, no error is raised and the stored
batch size is `min(128, 95) = 95`, which is not a power of two — the
power-of-two rounding is destroyed by the final cap at the sample count. -/
theorem C3_stored_batch_size_not_power_of_two :
    set_batch_size 95 100 1000 = .ok 95 ∧ ¬ ∃ k : ℕ, (95:ℕ) = 2 ^ k := by
  constructor
  · have hc : log2ceil 100 = 7 := by decide
    simp only [set_batch_size, calc_nearest_power_of_two, hc]
    norm_num [Except.map]
  · rintro ⟨k, hk⟩
    rcases le_or_lt k 6 with h | h
    · have : 2 ^ k ≤ 2 ^ 6 := Nat.pow_le_pow_right (by norm_num) h
      omega
    · have : 2 ^ 7 ≤ 2 ^ k := Nat.pow_le_pow_right (by norm_num) h
      omega

/-- **C3** (amended): for every requested batch size ≥ 1 for which
`set_batch_size` does not raise, the stored value is at most the number of
examples, at most the memory-derived maximum, and is either a power of two
or equal to the number of examples (the latter exactly when the cap at the
sample count was the binding constraint). -/
theorem C3_stored_batch_size_amended (num_examples batch_size : ℕ) (limit : ℚ)
    (v : ℕ) (_hb : 1 ≤ batch_size)
    (h : set_batch_size num_examples batch_size limit = .ok v) :
    v ≤ num_examples ∧ (v : ℚ) ≤ limit ∧ ((∃ k, v = 2 ^ k) ∨ v = num_examples) := by
  unfold set_batch_size at h
  rcases hcalc : calc_nearest_power_of_two batch_size limit with e | p
  · rw [hcalc] at h; simp [Except.map] at h
  · rw [hcalc] at h
    simp only [Except.map, Except.ok.injEq] at h
    have hp : (p:ℚ) ≤ limit ∧ ∃ k, p = 2 ^ k := by
      unfold calc_nearest_power_of_two at hcalc
      by_cases h1 : ((2 ^ log2ceil batch_size : ℕ) : ℚ) > limit
      · rw [if_pos h1] at hcalc
        by_cases h2 : ((2 ^ log2floor batch_size : ℕ) : ℚ) > limit
        · rw [if_pos h2] at hcalc; exact absurd hcalc (by simp)
        · rw [if_neg h2] at hcalc
          injection hcalc with h3
          exact ⟨h3 ▸ not_lt.mp h2, ⟨log2floor batch_size, h3.symm⟩⟩
      · rw [if_neg h1] at hcalc
        injection hcalc with h3
        exact ⟨h3 ▸ not_lt.mp h1, ⟨log2ceil batch_size, h3.symm⟩⟩
    subst h
    refine ⟨min_le_right _ _, ?_, ?_⟩
    · calc ((min p num_examples : ℕ) : ℚ) ≤ (p : ℚ) := by
            exact_mod_cast min_le_left _ _
        _ ≤ limit := hp.1
    · rcases le_total p num_examples with hle | hle
      · exact Or.inl (by rw [min_eq_left hle]; exact hp.2)
      · exact Or.inr (min_eq_right hle)

/-- Witness for the amended C3 theorem at the counterexample's input. -/
theorem C3_stored_batch_size_amended_witness :
    (95:ℕ) ≤ 95 ∧ ((95:ℕ) : ℚ) ≤ 1000 ∧
      ((∃ k, (95:ℕ) = 2 ^ k) ∨ (95:ℕ) = 95) :=
  C3_stored_batch_size_amended 95 100 1000 95 (by norm_num)
    (by
      have hc : log2ceil 100 = 7 := by decide
      simp only [set_batch_size, calc_nearest_power_of_two, hc]
      norm_num [Except.map])

/-! ## Sample discovery and count matching (`Dataset.make_image_dirs`,
prep_training_data.py 46-65, and `ImgLabelDataset.read_labels_from_excel`,
332-347)

`make_image_dirs` guards its mismatch check with `hasattr(self, 'num_images')`,
but no code path in the repository ever assigns an attribute named
`num_images` — every assignment writes `num_examples`.  The attribute store is
modelled by two optional fields so that the guard is translated exactly as
written. -/

/-- The two instance attributes relevant to the count check.  `num_images` is
never assigned anywhere in the repository; `num_examples` is written by
`make_image_dirs` itself. -/
structure DatasetAttrs where
  num_images : Option ℕ
  num_examples : Option ℕ
  deriving DecidableEq, Repr

/-- `Dataset.make_image_dirs` called with `num_found` files discovered: raise
the count-mismatch error only when the attribute `num_images` exists and the
new count differs from the stored `num_examples`; then store the new count.
(The absent-attribute read of `num_examples` in the guard is modelled with a
default of 0; the branch is unreachable because `num_images` is never set.) -/
def make_image_dirs (st : DatasetAttrs) (num_found : ℕ) : Except DataError DatasetAttrs :=
  match st.num_images with
  | some _ =>
      if num_found ≠ st.num_examples.getD 0 then .error .countMismatch
      else .ok ⟨st.num_images, some num_found⟩
  | none => .ok ⟨st.num_images, some num_found⟩

/-- `ImgMaskDataset.__init__`'s discovery sequence: `Dataset.__init__` lists
the images (first `make_image_dirs` call on a fresh attribute store), then the
subclass lists the masks (second call on the resulting store). -/
def imgMaskDiscover (num_images_found num_masks_found : ℕ) : Except DataError DatasetAttrs :=
  (make_image_dirs ⟨none, none⟩ num_images_found).bind
    (fun st => make_image_dirs st num_masks_found)

/-- `ImgLabelDataset.read_labels_from_excel`, count check only: raise the
count-mismatch error when the number of label rows differs from the number of
images. -/
def read_labels_from_excel (num_labels num_images_found : ℕ) : Except DataError Unit :=
  if num_labels ≠ num_images_found then .error .countMismatch else .ok ()

/-- **C4** (code-bug evaluation): a mask-paired dataset with 3 images and
2 masks is accepted — the mismatch check in `make_image_dirs` is guarded by
`hasattr(self, 'num_images')`, an attribute that is never assigned (all
assignments write `num_examples`), so the guard is dead and mask-paired
construction never raises the count-mismatch error.  Label-mode construction
does raise it, as that check compares the lengths directly. -/
theorem C4_mask_count_mismatch_not_detected_eval :
    imgMaskDiscover 3 2 = .ok ⟨none, some 2⟩ ∧
      read_labels_from_excel 3 2 = .error .countMismatch ∧
      read_labels_from_excel 2 2 = .ok () := by
  refine ⟨rfl, rfl, rfl⟩

/-! ## Checkpoint/history lifecycle (`InitializeModel.make_callbacks`,
model_initializer.py 256-284)

The file system is modelled by two booleans saying whether the checkpoint
file and the history CSV exist under the model path.  Loading weights is
recorded as a flag. -/

/-- Modelled from the spec: `shared_utils.os_utils.delete` (imported by
model_initializer.py but not part of the packaged sources) removes the given
file when it exists and silently does nothing when it is absent — per §7,
"missing checkpoint/history files are not errors".  In the boolean
file-system model the file simply no longer exists afterwards. -/
def deleteFile (_exists_before : Bool) : Bool := false

/-- Result of `make_callbacks`: the final freshness flag, whether each file
still exists afterwards, and whether checkpoint weights were loaded into the
network. -/
structure CallbacksResult where
  is_fresh : Bool
  ckpt_exists_after : Bool
  hist_exists_after : Bool
  loaded_weights : Bool
  deriving DecidableEq, Repr

/-- `InitializeModel.make_callbacks`: starting from the constructor's
`train_fresh` flag, if not already fresh then each missing file (checkpoint,
history) forces `train_fresh := True`; when fresh, both files are deleted;
otherwise the checkpoint weights are loaded.  Both existence tests run under
the original flag, exactly as in the source (the outer `if not
self.train_fresh` is evaluated once). -/
def make_callbacks (train_fresh ckpt_exists hist_exists : Bool) : CallbacksResult :=
  let fresh1 := if !train_fresh && !ckpt_exists then true else train_fresh
  let fresh2 := if !train_fresh && !hist_exists then true else fresh1
  if fresh2 then
    ⟨fresh2, deleteFile ckpt_exists, deleteFile hist_exists, false⟩
  else
    ⟨fresh2, ckpt_exists, hist_exists, true⟩

/-- **C9**: in resume mode (`train_fresh = false` at construction),
`is_fresh` ends up true exactly when the checkpoint or the history file is
absent; in the fresh case both files are deleted and no weights are loaded
(the modelled `delete` never raises on a missing file); weights are loaded
exactly when both files exist, and then `is_fresh` stays false. -/
theorem C9_resume_freshness (train_fresh ckpt_exists hist_exists : Bool)
    (hresume : train_fresh = false) :
    (make_callbacks train_fresh ckpt_exists hist_exists).is_fresh
        = (!ckpt_exists || !hist_exists) ∧
    ((make_callbacks train_fresh ckpt_exists hist_exists).is_fresh = true →
      (make_callbacks train_fresh ckpt_exists hist_exists).ckpt_exists_after = false ∧
      (make_callbacks train_fresh ckpt_exists hist_exists).hist_exists_after = false ∧
      (make_callbacks train_fresh ckpt_exists hist_exists).loaded_weights = false) ∧
    (ckpt_exists = true → hist_exists = true →
      (make_callbacks train_fresh ckpt_exists hist_exists).loaded_weights = true ∧
      (make_callbacks train_fresh ckpt_exists hist_exists).is_fresh = false) := by
  subst hresume
  cases ckpt_exists <;> cases hist_exists <;> refine ⟨rfl, ?_, ?_⟩ <;> decide

/-- Witness for C9: with both files absent the orchestrator is fresh,
deletes the (absent) stale files without error and loads nothing. -/
theorem C9_resume_freshness_witness :
    (make_callbacks false false false).is_fresh = (!false || !false) ∧
    ((make_callbacks false false false).is_fresh = true →
      (make_callbacks false false false).ckpt_exists_after = false ∧
      (make_callbacks false false false).hist_exists_after = false ∧
      (make_callbacks false false false).loaded_weights = false) ∧
    (false = true → false = true →
      (make_callbacks false false false).loaded_weights = true ∧
      (make_callbacks false false false).is_fresh = false) :=
  C9_resume_freshness false false false rfl

/-! ## Debug mode (`InitializeModel.set_run_debug`, model_initializer.py 74-78)

The train and validation `tf.data` pipelines are batched sequences; they are
modelled as lists of batches (`.take n` keeps the first `n` batches). -/

/-- The orchestrator state touched by debug mode: the two batched sequences
and the epoch budget. -/
structure DebugState (α : Type) where
  train_dataset : List α
  valid_dataset : List α
  num_epochs : ℕ

/-- `InitializeModel.set_run_debug`: reassign the train sequence to its own
first 16 batches, then reassign the validation sequence to the first 16
batches of the *new* train sequence, and set the epoch budget to 1. -/
def set_run_debug {α : Type} (st : DebugState α) : DebugState α :=
  let t := st.train_dataset.take 16
  let v := t.take 16
  ⟨t, v, 1⟩

/-- **C10**: debug mode trains for exactly one epoch, truncates the training
sequence to its first 16 batches, takes the validation sequence to be exactly
the truncated training sequence (taking 16 batches of the 16-batch truncation
changes nothing), and never reads the original validation sequence — the
result is identical for any two original validation sequences. -/
theorem C10_debug_mode {α : Type} (train valid valid2 : List α) (epochs : ℕ) :
    (set_run_debug ⟨train, valid, epochs⟩).num_epochs = 1 ∧
    (set_run_debug ⟨train, valid, epochs⟩).train_dataset = train.take 16 ∧
    (set_run_debug ⟨train, valid, epochs⟩).valid_dataset
        = (set_run_debug ⟨train, valid, epochs⟩).train_dataset ∧
    set_run_debug ⟨train, valid, epochs⟩ = set_run_debug ⟨train, valid2, epochs⟩ := by
  refine ⟨rfl, rfl, ?_, rfl⟩
  simp [set_run_debug, List.take_take]

/-! ## Local-minima escape (`InitializeModel.try_bypass_local_minimum` /
`pick_best_model`, model_initializer.py 319-362)

`try_bypass_local_minimum(n_times)` records, in insertion order, one
`(files, metric)` entry per attempt under the keys `jump_iter0 … jump_iter<n>`;
the key is modelled by the iteration index (0 = the original run).  The
metric is the final-epoch value returned by `get_final_epoch_coeff`, an
exact small decimal modelled as a rational.  `pick_best_model` then scans the
records with the accumulator `best_acc` (initially 0) and `best_model`
(initially the empty string, modelled as `none`):

    if best_acc > 0:            best_acc = accuracy
    elif accuracy > best_acc:   best_model = model

and finally copies `best_model`'s files over the canonical paths when
`best_model` is nonempty. -/

/-- `InitializeModel.pick_best_model`: returns the key of the record whose
files are copied back over the canonical checkpoint/history paths, or `none`
when `best_model` stays empty ("Original model was the best."). -/
def pick_best_model (backup_models : List (ℕ × ℚ)) : Option ℕ :=
  (backup_models.foldl
    (fun (st : ℚ × Option ℕ) nm =>
      if 0 < st.1 then (nm.2, st.2)
      else if nm.2 > st.1 then (st.1, some nm.1)
      else st)
    ((0 : ℚ), none)).2

/-- The backup records built by `InitializeModel.try_bypass_local_minimum`
with `n_times = run_metrics.length`: the current run as `jump_iter0`, then
one record per repeat, in insertion order. -/
def try_bypass_records (metric0 : ℚ) (run_metrics : List ℚ) : List (ℕ × ℚ) :=
  (0, metric0) :: ((List.range run_metrics.length).zip run_metrics).map
    (fun p => (p.1 + 1, p.2))

/-- **C1** (code-bug evaluation): an escape with 2 attempts does produce the
3 records `jump_iter0..2`, but with final-epoch metrics 0.9, 0.5, 0.3 the
scan copies back `jump_iter2` (metric 0.3): because `best_acc` is only
reassigned inside the `if best_acc > 0` branch it stays 0 forever, so every
positively-scored record overwrites `best_model` and the *last* positive
record wins, not the one with the highest metric (`jump_iter0`, 0.9). -/
theorem C1_escape_restores_last_not_best_eval :
    try_bypass_records (9/10) [1/2, 3/10]
        = [(0, (9:ℚ)/10), (1, (1:ℚ)/2), (2, (3:ℚ)/10)] ∧
    (try_bypass_records (9/10) [1/2, 3/10]).length = 2 + 1 ∧
    pick_best_model (try_bypass_records (9/10) [1/2, 3/10]) = some 2 ∧
    (∀ r ∈ try_bypass_records (9/10) [1/2, 3/10], r.2 ≤ 9/10) ∧
    (3:ℚ)/10 < 9/10 ∧ (2:ℕ) ≠ 0 := by
  have hrecs : try_bypass_records (9/10) [1/2, 3/10]
      = [(0, (9:ℚ)/10), (1, (1:ℚ)/2), (2, (3:ℚ)/10)] := by
    simp [try_bypass_records, List.range_succ]
  refine ⟨hrecs, by rw [hrecs]; rfl, ?_, ?_, by norm_num, by norm_num⟩
  · rw [hrecs]
    norm_num [pick_best_model]
  · rw [hrecs]
    intro r hr
    fin_cases hr <;> norm_num

/-! ## Train/valid/test splitting (`ImgMaskDataset.load_data`,
prep_training_data.py 290-303) -/

/-- Reindex a list by a list of positions (out-of-range positions are
skipped; when the position list is a permutation of `0..n-1` this is exactly
row shuffling). -/
def applyPerm {α : Type} (p : List ℕ) (xs : List α) : List α :=
  p.filterMap (fun i => xs[i]?)

/-- Model of `sklearn.model_selection.train_test_split` with an integer
`test_size`, the only form `load_data` uses: the rows are reindexed by a
pseudo-random permutation of `0..n-1` that is a pure function of the
`random_state` seed and the row count, the first `test_size` shuffled rows
form the second ("test") component and the remaining rows the first
("train") component.  The library's documented contract (§6) is determinism
in `(random_state, data)`; the concrete permutation is a parameter `perm`. -/
def train_test_split {α : Type} (perm : ℕ → ℕ → List ℕ) (seed : ℕ)
    (xs : List α) (test_size : ℕ) : List α × List α :=
  let sh := applyPerm (perm seed xs.length) xs
  (sh.drop test_size, sh.take test_size)

/-- `ImgMaskDataset.load_data`: `size = int(len(images) * split)` rows are
carved off for validation — from images and masks separately but with the
same `random_state=self.seed` — and then the *same absolute* `size` rows are
carved off the remaining train portion for test, again with the same seed.
Returns `((train_x, train_y), (valid_x, valid_y), (test_x, test_y))`. -/
def load_data {α : Type} (perm : ℕ → ℕ → List ℕ) (seed : ℕ)
    (images masks : List α) (split : ℚ) :
    (List α × List α) × (List α × List α) × (List α × List α) :=
  let size := ⌊(images.length : ℚ) * split⌋₊
  let txv := train_test_split perm seed images size
  let tyv := train_test_split perm seed masks size
  let txt := train_test_split perm seed txv.1 size
  let tyt := train_test_split perm seed tyv.1 size
  ((txt.1, tyt.1), (txv.2, tyv.2), (txt.2, tyt.2))

/-- The identity shuffle: a concrete instance of the permutation parameter,
used for closed-form evaluations. -/
def identityPerm : ℕ → ℕ → List ℕ := fun _ n => List.range n

example : applyPerm (identityPerm 0 3) [10, 20, 30] = [10, 20, 30] := by decide

/-- Reindexing by positions that are all in range yields one row per
position. -/
theorem applyPerm_length {α : Type} (p : List ℕ) (xs : List α)
    (hp : ∀ i ∈ p, i < xs.length) : (applyPerm p xs).length = p.length := by
  induction p with
  | nil => rfl
  | cons i t ih =>
      have hi : i < xs.length := hp i (by simp)
      have ht : ∀ j ∈ t, j < xs.length := fun j hj => hp j (by simp [hj])
      simp only [applyPerm, List.filterMap_cons] at *
      rw [List.getElem?_eq_getElem hi]
      simp [ih ht]

/-- A seeded shuffle that really permutes `0..n-1` preserves the row count. -/
theorem shuffled_length {α : Type} (p : List ℕ) (xs : List α)
    (hp : p.Perm (List.range xs.length)) :
    (applyPerm p xs).length = xs.length := by
  have hmem : ∀ i ∈ p, i < xs.length := by
    intro i hi
    have := hp.mem_iff.mp hi
    simpa [List.mem_range] using this
  rw [applyPerm_length p xs hmem, hp.length_eq, List.length_range]

/-- **C5** (counterexample): for 25 mask-paired samples with ratio 0.2 the
code carves `int(25·0.2) = 5` rows off for validation, leaving a 20-row train
portion, and then carves off for test the *same absolute count* 5 — not the
claimed 0.2 fraction of the remaining 20 rows, which is exactly 4. -/
theorem C5_test_carveoff_counterexample :
    ((load_data identityPerm 42 (List.range 25) (List.range 25) (1/5)).2.1.1).length = 5 ∧
    ((load_data identityPerm 42 (List.range 25) (List.range 25) (1/5)).1.1).length = 15 ∧
    ((load_data identityPerm 42 (List.range 25) (List.range 25) (1/5)).2.2.1).length = 5 ∧
    ((25:ℚ) - 5) * (1/5) = 4 ∧ (5:ℕ) ≠ 4 := by
  have hsize : ⌊(((List.range 25).length : ℕ) : ℚ) * (1/5)⌋₊ = 5 := by
    simp only [List.length_range]
    norm_num
  refine ⟨?_, ?_, ?_, by norm_num, by norm_num⟩ <;>
    · simp only [load_data, hsize]
      decide

/-- Length bookkeeping for one modelled `train_test_split` call with a
genuinely permuting shuffle: the test part gets exactly `test_size` rows and
the train part the rest. -/
theorem train_test_split_lengths {α : Type} (perm : ℕ → ℕ → List ℕ)
    (hperm : ∀ s n, (perm s n).Perm (List.range n)) (seed k : ℕ) (xs : List α)
    (hk : k ≤ xs.length) :
    (train_test_split perm seed xs k).1.length = xs.length - k ∧
    (train_test_split perm seed xs k).2.length = k := by
  have hsh : (applyPerm (perm seed xs.length) xs).length = xs.length :=
    shuffled_length _ _ (hperm seed xs.length)
  constructor
  · simp [train_test_split, List.length_drop, hsh]
  · simp only [train_test_split, List.length_take, hsh]
    omega

/-- **C5** (amended): for a mask-paired sample set of `N` images with split
ratio 0.2, the split carves off `int(0.2·N) = N/5` rows for validation and
then the same absolute count `N/5` — not a 0.2 fraction of the remaining
train portion — for test, leaving `N - 2·(N/5)` train rows; masks follow the
same counts. -/
theorem C5_split_sizes_amended {α : Type} (perm : ℕ → ℕ → List ℕ)
    (hperm : ∀ s n, (perm s n).Perm (List.range n)) (seed : ℕ)
    (images masks : List α) (hlen : masks.length = images.length) :
    ((load_data perm seed images masks (1/5)).2.1.1).length = images.length / 5 ∧
    ((load_data perm seed images masks (1/5)).2.1.2).length = images.length / 5 ∧
    ((load_data perm seed images masks (1/5)).2.2.1).length = images.length / 5 ∧
    ((load_data perm seed images masks (1/5)).2.2.2).length = images.length / 5 ∧
    ((load_data perm seed images masks (1/5)).1.1).length
        = images.length - 2 * (images.length / 5) ∧
    ((load_data perm seed images masks (1/5)).1.2).length
        = images.length - 2 * (images.length / 5) := by
  have hsize : ⌊((images.length : ℕ) : ℚ) * (1/5)⌋₊ = images.length / 5 := by
    rw [mul_one_div, show ((5:ℚ) = ((5:ℕ):ℚ)) by norm_num, Nat.floor_div_nat,
      Nat.floor_natCast]
  have hkN : images.length / 5 ≤ images.length := Nat.div_le_self _ 5
  have hv := train_test_split_lengths perm hperm seed (images.length / 5) images hkN
  have hvm := train_test_split_lengths perm hperm seed (images.length / 5) masks
    (by rw [hlen]; exact hkN)
  have htX := train_test_split_lengths perm hperm seed (images.length / 5)
    (train_test_split perm seed images (images.length / 5)).1 (by rw [hv.1]; omega)
  have htY := train_test_split_lengths perm hperm seed (images.length / 5)
    (train_test_split perm seed masks (images.length / 5)).1 (by rw [hvm.1, hlen]; omega)
  simp only [load_data, hsize]
  refine ⟨hv.2, hvm.2, htX.2, htY.2, ?_, ?_⟩
  · rw [htX.1, hv.1]; omega
  · rw [htY.1, hvm.1, hlen]; omega

/-- Witness for the amended C5 theorem: 10 samples under the identity
shuffle give validation 2, test 2 and train 6. -/
theorem C5_split_sizes_amended_witness :
    ((load_data identityPerm 0 (List.range 10) (List.range 10) (1/5)).2.1.1).length
        = (List.range 10).length / 5 ∧
    ((load_data identityPerm 0 (List.range 10) (List.range 10) (1/5)).2.1.2).length
        = (List.range 10).length / 5 ∧
    ((load_data identityPerm 0 (List.range 10) (List.range 10) (1/5)).2.2.1).length
        = (List.range 10).length / 5 ∧
    ((load_data identityPerm 0 (List.range 10) (List.range 10) (1/5)).2.2.2).length
        = (List.range 10).length / 5 ∧
    ((load_data identityPerm 0 (List.range 10) (List.range 10) (1/5)).1.1).length
        = (List.range 10).length - 2 * ((List.range 10).length / 5) ∧
    ((load_data identityPerm 0 (List.range 10) (List.range 10) (1/5)).1.2).length
        = (List.range 10).length - 2 * ((List.range 10).length / 5) :=
  C5_split_sizes_amended identityPerm (fun _ _ => List.Perm.refl _) 0
    (List.range 10) (List.range 10) rfl

/-- **C8**: the split is a pure function of the seed and the input lists —
two runs with the same seed and the same input ordering produce identical
train/validation/test partitions (every image/mask pair lands in the same
subset in both runs). -/
theorem C8_split_reproducible {α : Type} (perm : ℕ → ℕ → List ℕ)
    (seed1 seed2 : ℕ) (images1 images2 masks1 masks2 : List α) (ratio : ℚ)
    (hs : seed1 = seed2) (hi : images1 = images2) (hm : masks1 = masks2) :
    load_data perm seed1 images1 masks1 ratio
      = load_data perm seed2 images2 masks2 ratio := by
  subst hs; subst hi; subst hm; rfl

/-- Witness for C8 at a concrete seed and sample set. -/
theorem C8_split_reproducible_witness :
    load_data identityPerm 42 (List.range 5) (List.range 5) (1/5)
      = load_data identityPerm 42 (List.range 5) (List.range 5) (1/5) :=
  C8_split_reproducible identityPerm 42 42 (List.range 5) (List.range 5)
    (List.range 5) (List.range 5) (1/5) rfl rfl rfl

/-! ## Model-name resolution (`InitializeModel.get_complexity_from_model_name`,
model_initializer.py 213-224)

Python strings are modelled as `List Char`.  `__init__` lowercases the
requested name (`self.model_name = model_name.lower()`) before the resolver
runs, so every resolver-level statement is about `toLowerL name`.  The
resolver computes

    model_name_base = max((k for k in catalog if name.startswith(k)), key=len)
    complexity      = name.split(model_name_base)[-1]
                        .replace('small', 'Small').replace('large', 'Large')

and raises when no key matches or the normalized token exceeds 12
characters.  Python's `str.split(sep)[-1]` is the segment after the last
left-to-right non-overlapping occurrence of `sep`; Python's `str.replace`
rewrites every such occurrence.  Both are modelled by structural recursion
on the first occurrence with explicit fuel. -/

/-- Lowercasing of `str.lower()` on the character list. -/
def toLowerL (s : List Char) : List Char := s.map Char.toLower

/-- The keys of `valid_model_names_all` (`valid_models_builtin` then
`valid_models_custom`), in dictionary insertion order. -/
def catalogKeys : List (List Char) :=
  ["efficientnet", "efficientnet_v2", "densenet", "vgg", "inception",
   "inception_resnet", "resnet", "resnet_v2", "resnet_rs", "regnet",
   "mobilenet", "mobilenet_v2", "mobilenet_v3", "xception",
   "unet"].map String.toList

/-- One comparison step of Python's `max(..., key=len)`: keep the current
best unless the next candidate is strictly longer. -/
def longer (b x : List Char) : List Char := if b.length < x.length then x else b

/-- Python's `max(candidates, key=len)`: scan left to right, replacing the
current best only on a strictly greater length (so the first of several
equally long candidates wins); `none` on the empty list (where Python would
raise, a case the source excludes beforehand). -/
def pickLongest : List (List Char) → Option (List Char)
  | [] => none
  | k :: ks => some (ks.foldl longer k)

/-- The `model_name_base` assignment: the longest catalog key that is a
prefix of the lowercased name, if any key matches. -/
def model_name_base? (lname : List Char) : Option (List Char) :=
  pickLongest (catalogKeys.filter (fun k => k.isPrefixOf lname))

/-- Split a string at the first occurrence of (nonempty) `sep`: returns the
part strictly before the occurrence and the part strictly after it, or
`none` when `sep` does not occur. -/
def splitAtFirst (sep : List Char) : List Char → Option (List Char × List Char)
  | [] => none
  | c :: rest =>
      if sep.isPrefixOf (c :: rest) then some ([], (c :: rest).drop sep.length)
      else
        match splitAtFirst sep rest with
        | none => none
        | some (pre, post) => some (c :: pre, post)

/-- Fuel-indexed scan for the segment after the last non-overlapping
occurrence of `sep` (the last element of Python's `s.split(sep)`). -/
def lastChunkFuel (sep : List Char) : ℕ → List Char → List Char
  | 0, s => s
  | fuel + 1, s =>
      match splitAtFirst sep s with
      | none => s
      | some (_, post) => lastChunkFuel sep fuel post

/-- `s.split(sep)[-1]` for nonempty `sep`: the length of `s` is always
enough fuel because each found occurrence strictly shortens the rest. -/
def lastChunk (sep s : List Char) : List Char := lastChunkFuel sep s.length s

/-- Fuel-indexed left-to-right replacement of every non-overlapping
occurrence of `sep` by `repl`. -/
def pyReplaceFuel (sep repl : List Char) : ℕ → List Char → List Char
  | 0, s => s
  | fuel + 1, s =>
      match splitAtFirst sep s with
      | none => s
      | some (pre, post) => pre ++ repl ++ pyReplaceFuel sep repl fuel post

/-- Python's `s.replace(sep, repl)` for nonempty `sep`. -/
def pyReplace (sep repl s : List Char) : List Char := pyReplaceFuel sep repl s.length s

/-- `InitializeModel.get_complexity_from_model_name`, acting on the already
lowercased name: pick the longest matching catalog key, take the segment
after the last occurrence of that key, normalize `small`/`large`, and
police the 12-character bound. -/
def get_complexity_from_model_name (lname : List Char) :
    Except DataError (List Char × List Char) :=
  match model_name_base? lname with
  | none => .error .unknownBaseModel
  | some base =>
      let c := pyReplace ("large".toList) ("Large".toList)
        (pyReplace ("small".toList) ("Small".toList) (lastChunk base lname))
      if 12 < c.length then .error .complexityTooLong else .ok (base, c)

example : get_complexity_from_model_name (toLowerL ("EfficientNetB2".toList))
    = .ok ("efficientnet".toList, "b2".toList) := by rfl
example : get_complexity_from_model_name (toLowerL ("resnet50_v2".toList))
    = .ok ("resnet".toList, "50_v2".toList) := by rfl
example : get_complexity_from_model_name (toLowerL ("resnet_v250".toList))
    = .ok ("resnet_v2".toList, "50".toList) := by rfl
example : get_complexity_from_model_name (toLowerL ("mobilenet_v3small".toList))
    = .ok ("mobilenet_v3".toList, "Small".toList) := by rfl
example : get_complexity_from_model_name (toLowerL ("zzz".toList))
    = .error .unknownBaseModel := by rfl

/-- The scan of `max(..., key=len)` returns its seed or one of the scanned
candidates. -/
theorem foldl_longer_mem (ks : List (List Char)) :
    ∀ k : List Char, ks.foldl longer k = k ∨ ks.foldl longer k ∈ ks := by
  induction ks with
  | nil => intro k; exact Or.inl rfl
  | cons x t ih =>
      intro k
      simp only [List.foldl_cons]
      by_cases hx : k.length < x.length
      · rcases ih (longer k x) with h | h
        · rw [h, longer, if_pos hx]
          exact Or.inr (List.mem_cons_self x t)
        · exact Or.inr (List.mem_cons_of_mem x h)
      · rcases ih (longer k x) with h | h
        · rw [h, longer, if_neg hx]
          exact Or.inl rfl
        · exact Or.inr (List.mem_cons_of_mem x h)

/-- The scan of `max(..., key=len)` never returns something shorter than the
seed or any scanned candidate. -/
theorem foldl_longer_ge (ks : List (List Char)) :
    ∀ k : List Char,
      k.length ≤ (ks.foldl longer k).length ∧
      ∀ x ∈ ks, x.length ≤ (ks.foldl longer k).length := by
  induction ks with
  | nil =>
      intro k
      exact ⟨le_refl _, by simp⟩
  | cons x t ih =>
      intro k
      simp only [List.foldl_cons]
      have hkg : k.length ≤ (longer k x).length := by
        by_cases hx : k.length < x.length
        · rw [longer, if_pos hx]; omega
        · rw [longer, if_neg hx]
      have hxg : x.length ≤ (longer k x).length := by
        by_cases hx : k.length < x.length
        · rw [longer, if_pos hx]
        · rw [longer, if_neg hx]; omega
      obtain ⟨h1, h2⟩ := ih (longer k x)
      refine ⟨hkg.trans h1, ?_⟩
      intro y hy
      rcases List.mem_cons.mp hy with rfl | hy
      · exact hxg.trans h1
      · exact h2 y hy

/-- `pickLongest` only returns elements of its input. -/
theorem pickLongest_mem (l : List (List Char)) (b : List Char)
    (h : pickLongest l = some b) : b ∈ l := by
  cases l with
  | nil => exact absurd h (by simp [pickLongest])
  | cons k ks =>
      simp only [pickLongest, Option.some.injEq] at h
      rcases foldl_longer_mem ks k with h2 | h2
      · rw [← h, h2]; exact List.mem_cons_self k ks
      · rw [← h]; exact List.mem_cons_of_mem k h2

/-- `pickLongest` returns an element of maximal length. -/
theorem pickLongest_longest (l : List (List Char)) (b : List Char)
    (h : pickLongest l = some b) : ∀ x ∈ l, x.length ≤ b.length := by
  cases l with
  | nil => simp
  | cons k ks =>
      simp only [pickLongest, Option.some.injEq] at h
      obtain ⟨h1, h2⟩ := foldl_longer_ge ks k
      intro x hx
      rcases List.mem_cons.mp hx with rfl | hx
      · exact h ▸ h1
      · exact h ▸ h2 x hx

/-- **C6**: on the lowercased model name, the resolver fails with the
unknown-base-model error exactly when no catalog key is a prefix; when at
least one key is a prefix, `model_name_base` is assigned, and whatever it is
assigned is a catalog key that is a prefix of the name and is at least as
long as every catalog key that is a prefix of the name. -/
theorem C6_resolver_picks_longest_key (name : List Char) :
    ((∀ k ∈ catalogKeys, k.isPrefixOf (toLowerL name) = false) →
      get_complexity_from_model_name (toLowerL name) = .error .unknownBaseModel) ∧
    ((∃ k ∈ catalogKeys, k.isPrefixOf (toLowerL name) = true) →
      ∃ base, model_name_base? (toLowerL name) = some base) ∧
    (∀ base, model_name_base? (toLowerL name) = some base →
      base ∈ catalogKeys ∧ base.isPrefixOf (toLowerL name) = true ∧
      ∀ k ∈ catalogKeys, k.isPrefixOf (toLowerL name) = true →
        k.length ≤ base.length) := by
  refine ⟨?_, ?_, ?_⟩
  · intro h
    have hfil : catalogKeys.filter (fun k => k.isPrefixOf (toLowerL name)) = [] := by
      rw [List.filter_eq_nil_iff]
      intro a ha
      simp [h a ha]
    simp [get_complexity_from_model_name, model_name_base?, hfil, pickLongest]
  · rintro ⟨k, hk, hpre⟩
    have hmem : k ∈ catalogKeys.filter (fun k => k.isPrefixOf (toLowerL name)) :=
      List.mem_filter.mpr ⟨hk, hpre⟩
    rcases hfil : catalogKeys.filter (fun k => k.isPrefixOf (toLowerL name)) with _ | ⟨a, l⟩
    · rw [hfil] at hmem; exact absurd hmem (by simp)
    · exact ⟨l.foldl longer a, by simp [model_name_base?, hfil, pickLongest]⟩
  · intro base hbase
    have hb : pickLongest (catalogKeys.filter (fun k => k.isPrefixOf (toLowerL name)))
        = some base := hbase
    have hmem := pickLongest_mem _ _ hb
    have hmax := pickLongest_longest _ _ hb
    refine ⟨(List.mem_filter.mp hmem).1, (List.mem_filter.mp hmem).2, ?_⟩
    intro k hk hpre
    exact hmax k (List.mem_filter.mpr ⟨hk, hpre⟩)

/-- Witness for C6: `"zzz"` matches no key and fails; for
`"mobilenet_v3small"` both `"mobilenet"` and `"mobilenet_v3"` are prefixes
and the resolver's assignment satisfies the longest-prefix property. -/
theorem C6_resolver_picks_longest_key_witness :
    get_complexity_from_model_name (toLowerL ("zzz".toList))
        = .error .unknownBaseModel ∧
    (∃ base, model_name_base? (toLowerL ("mobilenet_v3small".toList)) = some base) ∧
    ("mobilenet_v3".toList ∈ catalogKeys ∧
      ("mobilenet_v3".toList).isPrefixOf (toLowerL ("mobilenet_v3small".toList)) = true ∧
      ∀ k ∈ catalogKeys,
        k.isPrefixOf (toLowerL ("mobilenet_v3small".toList)) = true →
          k.length ≤ ("mobilenet_v3".toList).length) :=
  ⟨(C6_resolver_picks_longest_key ("zzz".toList)).1 (by decide),
   (C6_resolver_picks_longest_key ("mobilenet_v3small".toList)).2.1
     ⟨"mobilenet".toList, by decide, by decide⟩,
   (C6_resolver_picks_longest_key ("mobilenet_v3small".toList)).2.2
     ("mobilenet_v3".toList) (by rfl)⟩

/-- A list is a `isPrefixOf`-prefix of itself followed by anything. -/
theorem isPrefixOf_append_self : ∀ (sep t : List Char), sep.isPrefixOf (sep ++ t) = true := by
  intro sep t
  induction sep with
  | nil => cases t <;> rfl
  | cons c cs ih => simp [List.isPrefixOf, ih]

/-- The first occurrence of a nonempty `sep` in `sep ++ t` is at the start,
and what follows it is exactly `t`. -/
theorem splitAtFirst_append_self (c : Char) (cs t : List Char) :
    splitAtFirst (c :: cs) ((c :: cs) ++ t) = some ([], t) := by
  have hpre : (c :: cs).isPrefixOf ((c :: cs) ++ t) = true := isPrefixOf_append_self _ _
  rw [List.cons_append]
  unfold splitAtFirst
  rw [← List.cons_append, hpre]
  simp [List.drop_left]

/-- When `sep` does not occur, the last-chunk scan returns the whole string
at every fuel value. -/
theorem lastChunkFuel_of_none (sep s : List Char) (h : splitAtFirst sep s = none) :
    ∀ fuel, lastChunkFuel sep fuel s = s := by
  intro fuel
  cases fuel with
  | zero => rfl
  | succ f => simp only [lastChunkFuel, h]

/-- Stripping a nonempty leading `sep`: if `sep` does not occur again in
`rem`, the last element of `(sep ++ rem).split(sep)` is `rem` itself. -/
theorem lastChunk_strip (c : Char) (cs rem : List Char)
    (hnone : splitAtFirst (c :: cs) rem = none) :
    lastChunk (c :: cs) ((c :: cs) ++ rem) = rem := by
  have hlen : ((c :: cs) ++ rem).length = (cs ++ rem).length + 1 := by simp
  unfold lastChunk
  rw [hlen]
  simp only [lastChunkFuel, splitAtFirst_append_self]
  exact lastChunkFuel_of_none _ _ hnone _

/-- **C7** (counterexample): for the resolvable lowercase name
`"vgg16vgg7"` the matched base key is `"vgg"` and the code's complexity
token is `"7"` — the segment after the *last* occurrence of the key — while
the remainder after stripping the key from the front is `"16vgg7"`
(unchanged by the small/large normalization); the two disagree. -/
theorem C7_complexity_after_last_occurrence_counterexample :
    get_complexity_from_model_name (toLowerL ("vgg16vgg7".toList))
        = .ok ("vgg".toList, "7".toList) ∧
    toLowerL ("vgg16vgg7".toList) = "vgg".toList ++ "16vgg7".toList ∧
    pyReplace ("large".toList) ("Large".toList)
        (pyReplace ("small".toList) ("Small".toList) ("16vgg7".toList))
      = "16vgg7".toList ∧
    ("7".toList : List Char) ≠ "16vgg7".toList := by
  refine ⟨by rfl, by rfl, by rfl, by decide⟩

/-- **C7** (amended): for every resolvable model name, the complexity token
is the remainder of the lowercased name after the *last* (non-overlapping,
left-to-right) occurrence of the matched base key, with every `"small"`
replaced by `"Small"` and every `"large"` replaced by `"Large"`; when the
key does not occur again past its leading match — the common case — this is
exactly the remainder after stripping the key from the front, as claimed. -/
theorem C7_complexity_amended (name base rem c : List Char)
    (hok : get_complexity_from_model_name (toLowerL name) = .ok (base, c))
    (hsplit : toLowerL name = base ++ rem)
    (hnorepeat : splitAtFirst base rem = none) :
    c = pyReplace ("large".toList) ("Large".toList)
        (pyReplace ("small".toList) ("Small".toList) rem) := by
  unfold get_complexity_from_model_name at hok
  cases hbase : model_name_base? (toLowerL name) with
  | none => rw [hbase] at hok; exact absurd hok (by simp)
  | some b =>
      rw [hbase] at hok
      simp only at hok
      split_ifs at hok with hbig
      have hpair := Except.ok.inj hok
      have hb : b = base := congrArg Prod.fst hpair
      have hc := congrArg Prod.snd hpair
      dsimp only at hc
      subst hb
      have hmem : b ∈ catalogKeys := by
        have h1 := pickLongest_mem _ _ hbase
        exact (List.mem_filter.mp h1).1
      have hne : b ≠ [] := by
        have hall : ∀ x ∈ catalogKeys, x ≠ [] := by decide
        exact hall b hmem
      obtain ⟨c0, cs, rfl⟩ : ∃ c0 cs, b = c0 :: cs := by
        cases b with
        | nil => exact absurd rfl hne
        | cons c0 cs => exact ⟨c0, cs, rfl⟩
      rw [← hc, hsplit, lastChunk_strip c0 cs rem hnorepeat]

/-- Witness for the amended C7 theorem: `"vgg16"` resolves with base
`"vgg"`, the key does not reoccur in the remainder `"16"`, and the
complexity token is exactly that remainder. -/
theorem C7_complexity_amended_witness :
    ("16".toList : List Char)
      = pyReplace ("large".toList) ("Large".toList)
          (pyReplace ("small".toList) ("Small".toList) ("16".toList)) :=
  C7_complexity_amended ("vgg16".toList) ("vgg".toList) ("16".toList) ("16".toList)
    (by rfl) (by rfl) (by rfl)
